import Mathlib

/-!
# Verification of the `doodle` AsyncAPI document compiler

Shallow embedding of `src/asyncapi/docs.py`: the generic serializer
`_spec_asjson`, the document compiler `spec_asjson`, and the operation-message
resolution `set_operation_message`, together with models (from the spec) of the
repository modules that are not in `src/`: the dataclass definitions of
`asyncapi/specification_v2_0_0.py` (`Specification`, `Server`, `Channel`,
`Operation`, `Message`, `Components`), its `as_camel_case` helper, and the
schema generator `type_as_jsonschema` of `asyncapi/schema.py`.

Python dicts are embedded as ordered association lists with unique keys;
a Python function that can raise an uncaught exception (`KeyError`,
`AttributeError`) is embedded as an `Option`-returning function where `none`
models the exception escaping.
-/

set_option autoImplicit false

namespace Doodle

/-- A JSON/YAML document value: the output universe of the compiler.
Objects are ordered association lists, mirroring Python's insertion-ordered
dicts. -/
inductive JsonValue : Type where
  | null : JsonValue
  | str : String → JsonValue
  | num : Int → JsonValue
  | bool : Bool → JsonValue
  | arr : List JsonValue → JsonValue
  | obj : List (String × JsonValue) → JsonValue

/-- `d[k]` on a Python dict: the value at the first matching key. -/
def dictGet {α : Type} : List (String × α) → String → Option α
  | [], _ => none
  | p :: rest, k => if p.1 = k then some p.2 else dictGet rest k

/-- `d[k] = v` on a Python dict: replace the value at an existing key in
place, else append the new entry at the end (insertion order). -/
def dictSet {α : Type} : List (String × α) → String → α → List (String × α)
  | [], k, v => [(k, v)]
  | p :: rest, k, v => if p.1 = k then (k, v) :: rest else p :: dictSet rest k v

/-- `d.pop(k, None)` on a Python dict: remove the entry with key `k`
(on the unique-key dicts the program builds, removing every match is the
same as removing the one match). -/
def dictPop {α : Type} (d : List (String × α)) (k : String) : List (String × α) :=
  d.filter (fun p => p.1 ≠ k)

/-- The keys of a dict, in order. -/
def dictKeys {α : Type} (d : List (String × α)) : List String :=
  d.map Prod.fst

/-- Python `isinstance(v, dict)` view: the fields of an object value. -/
def asObj : JsonValue → Option (List (String × JsonValue))
  | .obj o => some o
  | _ => none

@[simp] theorem dictGet_nil {α : Type} (k : String) :
    dictGet ([] : List (String × α)) k = none := rfl

@[simp] theorem dictGet_cons {α : Type} (p : String × α) (rest : List (String × α)) (k : String) :
    dictGet (p :: rest) k = if p.1 = k then some p.2 else dictGet rest k := rfl

@[simp] theorem dictSet_nil {α : Type} (k : String) (v : α) :
    dictSet ([] : List (String × α)) k v = [(k, v)] := rfl

@[simp] theorem dictSet_cons {α : Type} (p : String × α) (rest : List (String × α))
    (k : String) (v : α) :
    dictSet (p :: rest) k v = if p.1 = k then (k, v) :: rest else p :: dictSet rest k v := rfl

@[simp] theorem asObj_obj (o : List (String × JsonValue)) : asObj (.obj o) = some o := rfl

/-- Split a character list at every underscore (the segments of
`name.split('_')`). -/
def underscoreSegs : List Char → List (List Char)
  | [] => [[]]
  | c :: rest =>
    let segs := underscoreSegs rest
    if c = '_' then [] :: segs
    else
      match segs with
      | [] => [[c]]
      | s :: ss => (c :: s) :: ss

/-- Capitalize a segment: first character uppercased, rest unchanged. -/
def capitalizeSeg : List Char → List Char
  | [] => []
  | c :: cs => c.toUpper :: cs

/-- Modelled from the spec: `as_camel_case` lives in
`asyncapi/specification_v2_0_0.py`, which is not under `src/`.  Spec §4.1:
"lowercase segments joined by `_` become camelCase — first segment unchanged,
subsequent segments capitalized, underscores removed". -/
def as_camel_case (name : String) : String :=
  match underscoreSegs name.data with
  | [] => ""
  | first :: rest => String.mk (first ++ (rest.map capitalizeSeg).flatten)

/-- The universe of Python values the reflective serializer `_spec_asjson`
dispatches on: dataclass instances (`record`, with fields in declaration
order), dicts, non-string iterables, enum members, and scalars
(str/int/bool/None, already document-shaped). -/
inductive GenericValue : Type where
  | record : List (String × GenericValue) → GenericValue
  | dict : List (String × GenericValue) → GenericValue
  | list : List GenericValue → GenericValue
  | enum : JsonValue → GenericValue
  | scalar : JsonValue → GenericValue

/-- The omission test of `_spec_asjson` on a serialized field value:
Python `not (field_value is not None and field_value != '')`.  Only `None`
and the empty string satisfy it (no other JSON value equals `''`). -/
def isOmitted : JsonValue → Bool
  | .null => true
  | .str s => s = ""
  | _ => false

mutual

/-- `_spec_asjson` (docs.py lines 158-181): the reflective generic
serializer.  A dataclass produces a dict of camelCased field names with
`None`/`''`-valued fields omitted; a dict keeps its keys verbatim; an
iterable becomes a list; an enum yields its underlying value; scalars pass
through. -/
def _spec_asjson : GenericValue → JsonValue
  | .record fields => .obj (serializeRecordFields [] fields)
  | .dict entries => .obj (serializeDictEntries entries)
  | .list items => .arr (serializeListItems items)
  | .enum v => v
  | .scalar v => v
termination_by structural v => v

/-- The dataclass-field loop of `_spec_asjson`: successive
`json_value[as_camel_case(field.name)] = field_value` assignments on an
initially empty dict, skipping omitted values. -/
def serializeRecordFields (acc : List (String × JsonValue)) :
    List (String × GenericValue) → List (String × JsonValue)
  | [] => acc
  | (n, v) :: rest =>
    let fv := _spec_asjson v
    if isOmitted fv then serializeRecordFields acc rest
    else serializeRecordFields (dictSet acc (as_camel_case n) fv) rest
termination_by structural l => l

/-- The dict comprehension of `_spec_asjson`: keys verbatim, values
serialized recursively. -/
def serializeDictEntries : List (String × GenericValue) → List (String × JsonValue)
  | [] => []
  | (k, v) :: rest => (k, _spec_asjson v) :: serializeDictEntries rest
termination_by structural l => l

/-- The list comprehension of `_spec_asjson` for iterables. -/
def serializeListItems : List GenericValue → List JsonValue
  | [] => []
  | v :: rest => _spec_asjson v :: serializeListItems rest
termination_by structural l => l

end

/-- Modelled from the spec: payload-type descriptors and `type_as_jsonschema`
live in `asyncapi/schema.py`, which is not under `src/`.  Spec §3/§4.2: an
opaque handle to a structural type definition — scalar, collection, or
structured fields (each field with a name, a type, and an
optional/nullable flag). -/
inductive PayloadType : Type where
  | string : PayloadType
  | integer : PayloadType
  | boolean : PayloadType
  | array : PayloadType → PayloadType
  | object : List (String × PayloadType × Bool) → PayloadType

/-- The `required` list of an object schema: spec §4.2, "a structured type's
field is listed in `required` unless its declared type is
nullable/optional"; field names are emitted camelCased (spec §8
end-to-end scenario). -/
def schemaRequired (fields : List (String × PayloadType × Bool)) : List JsonValue :=
  fields.filterMap (fun f => if f.2.2 then none else some (.str (as_camel_case f.1)))

mutual

/-- Modelled from the spec: `type_as_jsonschema` of `asyncapi/schema.py`
(not under `src/`).  Spec §4.2: a JSON-Schema-shaped mapping —
`{"type": "object", "properties": ..., "required": ...}` for structured
types, `{"type": "string"}` etc. for scalars, `{"type": "array",
"items": ...}` for collections. -/
def type_as_jsonschema : PayloadType → JsonValue
  | .string => .obj [("type", .str "string")]
  | .integer => .obj [("type", .str "integer")]
  | .boolean => .obj [("type", .str "boolean")]
  | .array t => .obj [("type", .str "array"), ("items", type_as_jsonschema t)]
  | .object fields =>
    .obj [("type", .str "object"),
          ("properties", .obj (schemaProperties fields)),
          ("required", .arr (schemaRequired fields))]
termination_by structural t => t

/-- The `properties` mapping of an object schema. -/
def schemaProperties : List (String × PayloadType × Bool) → List (String × JsonValue)
  | [] => []
  | f :: rest => (as_camel_case f.1, type_as_jsonschema f.2.1) :: schemaProperties rest
termination_by structural l => l

end

/-- Modelled from the spec: the `Server` dataclass of
`asyncapi/specification_v2_0_0.py` (not under `src/`).  Spec §3: "an internal
identifying name plus connection attributes". -/
structure Server : Type where
  name : String
  url : String
  protocol : String
  description : Option String

/-- Modelled from the spec: the `Message` dataclass of
`asyncapi/specification_v2_0_0.py` (not under `src/`).  Spec §3: "an optional
declared name, an optional payload-type descriptor, an optional
content-type". -/
structure Message : Type where
  name : Option String
  payload : Option PayloadType
  content_type : Option String

/-- Modelled from the spec: the `Operation` dataclass of
`asyncapi/specification_v2_0_0.py` (not under `src/`).  Spec §3: "references
an optional Message". -/
structure Operation : Type where
  message : Option Message

/-- Modelled from the spec: the `Channel` dataclass of
`asyncapi/specification_v2_0_0.py` (not under `src/`).  Spec §3: "an internal
name, an optional `subscribe` Operation, an optional `publish`
Operation". -/
structure Channel : Type where
  name : String
  subscribe : Option Operation
  publish : Option Operation

/-- Modelled from the spec: the `Components` dataclass of
`asyncapi/specification_v2_0_0.py` (not under `src/`).  Spec §3: "optional
container; `messages` maps an internal key (used as the document key and as
the `$ref` target segment) to a Message".  Only the `messages` mapping is
modelled — it is the only part of the components table the compiler in
`docs.py` reads or rewrites. -/
structure Components : Type where
  messages : Option (List (String × Message))

/-- Modelled from the spec: the `Specification` dataclass of
`asyncapi/specification_v2_0_0.py` (not under `src/`).  Spec §3: "Holds
servers (mapping of id→Server), channels (mapping of id→Channel), optional
components". -/
structure Specification : Type where
  servers : List (String × Server)
  channels : List (String × Channel)
  components : Option Components

/-- An optional string field as the reflective serializer sees it
(`getattr(value, field.name, None)`). -/
def optStr : Option String → GenericValue
  | none => .scalar .null
  | some s => .scalar (.str s)

/-- Baseline (reflective) view of a payload descriptor.  In Python the
payload is a *type object*; `_spec_asjson` serializes it to some non-`None`,
non-`''` value (a dict of class attributes).  Every such baseline value is
either overwritten with `type_as_jsonschema` (components messages with a
payload, inline-payload operations) or discarded wholesale (`$ref`
substitution) before the document is returned, so only its non-omitted
presence is observable; it is modelled as an empty dict. -/
def PayloadType.toGeneric (_ : PayloadType) : GenericValue := .dict []

/-- The `Server` dataclass as the reflective serializer sees it. -/
def Server.toGeneric (s : Server) : GenericValue :=
  .record [("name", .scalar (.str s.name)),
           ("url", .scalar (.str s.url)),
           ("protocol", .scalar (.str s.protocol)),
           ("description", optStr s.description)]

/-- The `Message` dataclass as the reflective serializer sees it. -/
def Message.toGeneric (m : Message) : GenericValue :=
  .record [("name", optStr m.name),
           ("payload", match m.payload with
                       | none => .scalar .null
                       | some p => p.toGeneric),
           ("content_type", optStr m.content_type)]

/-- The `Operation` dataclass as the reflective serializer sees it. -/
def Operation.toGeneric (o : Operation) : GenericValue :=
  .record [("message", match o.message with
                       | none => .scalar .null
                       | some m => m.toGeneric)]

/-- The `Channel` dataclass as the reflective serializer sees it. -/
def Channel.toGeneric (c : Channel) : GenericValue :=
  .record [("name", .scalar (.str c.name)),
           ("subscribe", match c.subscribe with
                         | none => .scalar .null
                         | some op => op.toGeneric),
           ("publish", match c.publish with
                       | none => .scalar .null
                       | some op => op.toGeneric)]

/-- The `Components` dataclass as the reflective serializer sees it. -/
def Components.toGeneric (c : Components) : GenericValue :=
  .record [("messages", match c.messages with
                        | none => .scalar .null
                        | some ms => .dict (ms.map (fun p => (p.1, p.2.toGeneric))))]

/-- The `Specification` dataclass as the reflective serializer sees it. -/
def Specification.toGeneric (s : Specification) : GenericValue :=
  .record [("servers", .dict (s.servers.map (fun p => (p.1, p.2.toGeneric)))),
           ("channels", .dict (s.channels.map (fun p => (p.1, p.2.toGeneric)))),
           ("components", match s.components with
                          | none => .scalar .null
                          | some c => c.toGeneric)]

/-- The reference condition of `set_operation_message` (docs.py lines
141-146): Python `operation.message.name and operation.message.name in
json_spec_messages`, yielding `json_spec_messages[operation.message.name]`
when it holds.  A `None` or empty name is falsy and never matches. -/
def message_ref_key (msg : Message) (json_spec_messages : List (String × String)) :
    Option String :=
  match msg.name with
  | none => none
  | some n => if n = "" then none else dictGet json_spec_messages n

/-- `set_operation_message` (docs.py lines 132-157).  `none` models an
uncaught exception: `operation_dict['message']` raises `KeyError` when the
serialized operation has no `message` key, and `.pop` raises when that value
is not a dict.  Otherwise: `contentType` is popped from the message dict
unconditionally; a resolvable declared name replaces the whole message with
`{"$ref": "#/components/messages/<key>"}`; else a set payload overwrites the
message's `payload` with its generated schema; else the message is left
as-is. -/
def set_operation_message (operation_dict : List (String × JsonValue))
    (operation : Option Operation) (json_spec_messages : List (String × String)) :
    Option (List (String × JsonValue)) :=
  match dictGet operation_dict "message" with
  | none => none
  | some mv =>
    match asObj mv with
    | none => none
    | some m =>
      let m' := dictPop m "contentType"
      let od := dictSet operation_dict "message" (.obj m')
      match operation with
      | none => some od
      | some op =>
        match op.message with
        | none => some od
        | some msg =>
          match message_ref_key msg json_spec_messages with
          | some key =>
            some (dictSet od "message"
              (.obj [("$ref", .str ("#/components/messages/" ++ key))]))
          | none =>
            match msg.payload with
            | some p =>
              some (dictSet od "message"
                (.obj (dictSet m' "payload" (type_as_jsonschema p))))
            | none => some od

/-- The nested assignment `json_spec['components']['messages'][message_name]
['payload'] = type_as_jsonschema(...)` (docs.py lines 101-104): every lookup
on the path must succeed and yield a dict (else `KeyError`/`TypeError`,
modelled as `none`); the final `['payload'] = schema` is a dict
assignment. -/
def update_component_payload (json : List (String × JsonValue)) (message_name : String)
    (schema : JsonValue) : Option (List (String × JsonValue)) :=
  match dictGet json "components" with
  | none => none
  | some componentsV =>
    match asObj componentsV with
    | none => none
    | some components =>
      match dictGet components "messages" with
      | none => none
      | some messagesV =>
        match asObj messagesV with
        | none => none
        | some messages =>
          match dictGet messages message_name with
          | none => none
          | some messageV =>
            match asObj messageV with
            | none => none
            | some message =>
              some (dictSet json "components"
                (.obj (dictSet components "messages"
                  (.obj (dictSet messages message_name
                    (.obj (dictSet message "payload" schema)))))))

/-- The first loop of `spec_asjson` (docs.py lines 98-107): for each
components/messages entry whose payload is set, overwrite its serialized
`payload` with the generated schema, and — only then, nested under the
payload check — record `declared name → components key` in
`json_spec_messages` when the name is truthy (dict assignment: a repeated
name overwrites the earlier key). -/
def apply_components_payloads :
    List (String × Message) → List (String × JsonValue) → List (String × String) →
    Option (List (String × JsonValue) × List (String × String))
  | [], json, msgs => some (json, msgs)
  | (message_name, message_type) :: rest, json, msgs =>
    match message_type.payload with
    | some payload =>
      match update_component_payload json message_name (type_as_jsonschema payload) with
      | none => none
      | some json' =>
        let msgs' :=
          match message_type.name with
          | none => msgs
          | some n => if n = "" then msgs else dictSet msgs n message_name
        apply_components_payloads rest json' msgs'
    | none => apply_components_payloads rest json msgs

/-- The body of the servers loop (docs.py lines 109-110): each server value
must be a dict (else the `.pop` raises), and its `name` entry is removed
with `pop('name', None)`. -/
def popNames : List (String × JsonValue) → Option (List (String × JsonValue))
  | [] => some []
  | (k, v) :: rest =>
    match asObj v with
    | none => none
    | some o =>
      match popNames rest with
      | none => none
      | some rest' => some ((k, .obj (dictPop o "name")) :: rest')

/-- The servers pass of `spec_asjson`: `json_spec['servers']` must exist and
be a dict (else `KeyError`), and every server entry has its `name`
popped in place. -/
def strip_server_names (json : List (String × JsonValue)) :
    Option (List (String × JsonValue)) :=
  match dictGet json "servers" with
  | none => none
  | some serversV =>
    match asObj serversV with
    | none => none
    | some servers =>
      match popNames servers with
      | none => none
      | some servers' => some (dictSet json "servers" (.obj servers'))

/-- `if key in channel_dict: set_operation_message(channel_dict[key], op,
json_spec_messages)` (docs.py lines 117-127).  The mutation of the operation
dict is written back under the same key, preserving its position. -/
def process_operation (channel_dict : List (String × JsonValue)) (key : String)
    (op : Option Operation) (json_spec_messages : List (String × String)) :
    Option (List (String × JsonValue)) :=
  match dictGet channel_dict key with
  | none => some channel_dict
  | some v =>
    match asObj v with
    | none => none
    | some od =>
      match set_operation_message od op json_spec_messages with
      | none => none
      | some od' => some (dictSet channel_dict key (.obj od'))

/-- The channels loop (docs.py lines 112-127): `zip(json_spec['channels']
.values(), spec.channels.values())` pairs the serialized channel dicts
positionally with the typed channels, truncating at the shorter list; each
paired channel dict has `name` popped and its `subscribe`/`publish`
operations resolved. -/
def process_channels :
    List (String × JsonValue) → List Channel → List (String × String) →
    Option (List (String × JsonValue))
  | rest, [], _ => some rest
  | [], _ :: _, _ => some []
  | (k, v) :: rest, ch :: chs, json_spec_messages =>
    match asObj v with
    | none => none
    | some cd =>
      match process_operation (dictPop cd "name") "subscribe" ch.subscribe
          json_spec_messages with
      | none => none
      | some cd2 =>
        match process_operation cd2 "publish" ch.publish json_spec_messages with
        | none => none
        | some cd3 =>
          match process_channels rest chs json_spec_messages with
          | none => none
          | some rest' => some ((k, .obj cd3) :: rest')

/-- The channels pass of `spec_asjson`: `json_spec['channels']` must exist
and be a dict, and the processed channel dicts are written back in place. -/
def strip_and_resolve_channels (json : List (String × JsonValue))
    (spec : Specification) (json_spec_messages : List (String × String)) :
    Option (List (String × JsonValue)) :=
  match dictGet json "channels" with
  | none => none
  | some channelsV =>
    match asObj channelsV with
    | none => none
    | some channels =>
      match process_channels channels (spec.channels.map Prod.snd)
          json_spec_messages with
      | none => none
      | some channels' => some (dictSet json "channels" (.obj channels'))

/-- The dict of components/messages the compiler iterates (docs.py lines
93-97): `spec.components.messages if spec.components and
spec.components.messages else {}` (an empty messages dict is falsy and also
yields `{}`). -/
def spec_messages_dict (spec : Specification) : List (String × Message) :=
  match spec.components with
  | none => []
  | some c =>
    match c.messages with
    | none => []
    | some ms => ms

/-- `spec_asjson` (docs.py lines 91-129): serialize the whole specification
reflectively, rewrite components-message payloads into schemas while
building the declared-name→key map, strip server names, then strip channel
names and resolve each operation's message.  `none` models an uncaught
exception escaping the compiler. -/
def spec_asjson (spec : Specification) : Option (List (String × JsonValue)) :=
  match asObj (_spec_asjson spec.toGeneric) with
  | none => none
  | some json0 =>
    match apply_components_payloads (spec_messages_dict spec) json0 [] with
    | none => none
    | some (json1, json_spec_messages) =>
      match strip_server_names json1 with
      | none => none
      | some json2 => strip_and_resolve_channels json2 spec json_spec_messages

/-! ## Association-list (Python dict) lemmas -/

theorem dictGet_dictSet_self {α : Type} (d : List (String × α)) (k : String) (v : α) :
    dictGet (dictSet d k v) k = some v := by
  induction d with
  | nil => simp [dictGet, dictSet]
  | cons p rest ih =>
    by_cases h : p.1 = k
    · simp [dictGet, dictSet, h]
    · simp [dictGet, dictSet, h, ih]

theorem dictGet_dictSet_ne {α : Type} (d : List (String × α)) (k k' : String) (v : α)
    (h : k' ≠ k) : dictGet (dictSet d k v) k' = dictGet d k' := by
  induction d with
  | nil => simp [dictGet, dictSet, Ne.symm h]
  | cons p rest ih =>
    by_cases hp : p.1 = k
    · subst hp
      simp [dictGet, dictSet, Ne.symm h]
    · by_cases hp' : p.1 = k'
      · simp [dictGet, dictSet, hp, hp', h]
      · simp [dictGet, dictSet, hp, hp', h, ih]

theorem mem_dictKeys_dictSet {α : Type} (d : List (String × α)) (k k' : String) (v : α) :
    k' ∈ dictKeys (dictSet d k v) ↔ k' = k ∨ k' ∈ dictKeys d := by
  induction d with
  | nil => simp [dictKeys, dictSet]
  | cons p rest ih =>
    by_cases hp : p.1 = k
    · have heq : dictSet (p :: rest) k v = (k, v) :: rest := by simp [dictSet, hp]
      rw [heq]
      simp only [dictKeys, List.map_cons, List.mem_cons, hp]
      tauto
    · have heq : dictSet (p :: rest) k v = p :: dictSet rest k v := by simp [dictSet, hp]
      rw [heq]
      simp only [dictKeys, List.map_cons, List.mem_cons] at ih ⊢
      rw [ih]
      tauto

theorem mem_dictSet_self {α : Type} (d : List (String × α)) (k : String) (v : α) :
    (k, v) ∈ dictSet d k v := by
  induction d with
  | nil => simp [dictSet]
  | cons p rest ih =>
    by_cases hp : p.1 = k
    · simp [dictSet, hp]
    · have heq : dictSet (p :: rest) k v = p :: dictSet rest k v := by
        simp [dictSet, hp]
      rw [heq]
      exact List.mem_cons_of_mem p ih

theorem not_mem_dictKeys_dictPop {α : Type} (d : List (String × α)) (k : String) :
    k ∉ dictKeys (dictPop d k) := by
  intro h
  simp only [dictKeys, dictPop, List.mem_map] at h
  obtain ⟨p, hp, hk⟩ := h
  rw [List.mem_filter] at hp
  have hne : p.1 ≠ k := by simpa using hp.2
  exact hne hk

theorem mem_dictKeys_of_mem_dictPop {α : Type} (d : List (String × α)) (k' k : String)
    (h : k ∈ dictKeys (dictPop d k')) : k ∈ dictKeys d := by
  simp only [dictKeys, dictPop, List.mem_map] at h ⊢
  obtain ⟨p, hp, he⟩ := h
  exact ⟨p, (List.mem_filter.mp hp).1, he⟩

theorem dictGet_dictPop_ne {α : Type} (d : List (String × α)) (k k' : String)
    (h : k' ≠ k) : dictGet (dictPop d k) k' = dictGet d k' := by
  induction d with
  | nil => simp [dictPop]
  | cons p rest ih =>
    by_cases hp : p.1 = k
    · have h1 : dictPop (p :: rest) k = dictPop rest k := by
        simp [dictPop, List.filter_cons, hp]
      have hne : p.1 ≠ k' := by rw [hp]; exact Ne.symm h
      have h2 : dictGet (p :: rest) k' = dictGet rest k' := by
        simp [dictGet, hne]
      rw [h1, h2, ih]
    · have h1 : dictPop (p :: rest) k = p :: dictPop rest k := by
        simp [dictPop, List.filter_cons, hp]
      rw [h1]
      by_cases hp' : p.1 = k'
      · simp [dictGet, hp']
      · simp [dictGet, hp', ih]

theorem dictKeys_eq_map_fst {α : Type} (d : List (String × α)) :
    dictKeys d = d.map Prod.fst := rfl

theorem mem_dictSet_of_ne {α : Type} (d : List (String × α)) (k k' : String) (v v' : α)
    (hmem : (k, v) ∈ d) (h : k ≠ k') : (k, v) ∈ dictSet d k' v' := by
  induction d with
  | nil => simp at hmem
  | cons p rest ih =>
    by_cases hp : p.1 = k'
    · have heq : dictSet (p :: rest) k' v' = (k', v') :: rest := by simp [dictSet, hp]
      rw [heq]
      rcases List.mem_cons.mp hmem with he | ht
      · exfalso
        rw [← he] at hp
        exact h hp
      · exact List.mem_cons_of_mem _ ht
    · have heq : dictSet (p :: rest) k' v' = p :: dictSet rest k' v' := by simp [dictSet, hp]
      rw [heq]
      rcases List.mem_cons.mp hmem with he | ht
      · rw [he]
        exact List.mem_cons_self _ _
      · exact List.mem_cons_of_mem _ (ih ht)

/-! ## Generic-serializer lemmas -/

theorem serializeDictEntries_eq_map (entries : List (String × GenericValue)) :
    serializeDictEntries entries = entries.map (fun p => (p.1, _spec_asjson p.2)) := by
  induction entries with
  | nil => rfl
  | cons p rest ih =>
    obtain ⟨k, v⟩ := p
    simp [serializeDictEntries, ih]

theorem not_mem_keys_serializeRecordFields (fields : List (String × GenericValue)) :
    ∀ (acc : List (String × JsonValue)) (k : String), k ∉ dictKeys acc →
    k ∉ fields.map (fun p => as_camel_case p.1) →
    k ∉ dictKeys (serializeRecordFields acc fields) := by
  induction fields with
  | nil =>
    intro acc k hacc _
    simpa [serializeRecordFields] using hacc
  | cons p rest ih =>
    obtain ⟨n, v⟩ := p
    intro acc k hacc hf
    simp only [List.map_cons, List.mem_cons, not_or] at hf
    obtain ⟨hne, hrest⟩ := hf
    simp only [serializeRecordFields]
    by_cases ho : isOmitted (_spec_asjson v)
    · rw [if_pos ho]
      exact ih acc k hacc hrest
    · rw [if_neg ho]
      apply ih
      · intro hk
        rcases (mem_dictKeys_dictSet acc (as_camel_case n) k _).mp hk with he | hm
        · exact hne he
        · exact hacc hm
      · exact hrest

theorem mem_serializeRecordFields_of_mem_acc (fields : List (String × GenericValue)) :
    ∀ (acc : List (String × JsonValue)) (k : String) (v : JsonValue), (k, v) ∈ acc →
    k ∉ fields.map (fun p => as_camel_case p.1) →
    (k, v) ∈ serializeRecordFields acc fields := by
  induction fields with
  | nil =>
    intro acc k v h _
    simpa [serializeRecordFields] using h
  | cons p rest ih =>
    obtain ⟨n, w⟩ := p
    intro acc k v hmem hf
    simp only [List.map_cons, List.mem_cons, not_or] at hf
    obtain ⟨hne, hrest⟩ := hf
    simp only [serializeRecordFields]
    by_cases ho : isOmitted (_spec_asjson w)
    · rw [if_pos ho]
      exact ih acc k v hmem hrest
    · rw [if_neg ho]
      exact ih _ k v (mem_dictSet_of_ne _ _ _ _ _ hmem hne) hrest

theorem omitted_field_not_mem_keys (fields : List (String × GenericValue)) :
    ∀ (acc : List (String × JsonValue)) (n : String) (v : GenericValue),
    (fields.map (fun p => as_camel_case p.1)).Nodup → (n, v) ∈ fields →
    isOmitted (_spec_asjson v) = true → as_camel_case n ∉ dictKeys acc →
    as_camel_case n ∉ dictKeys (serializeRecordFields acc fields) := by
  induction fields with
  | nil =>
    intro acc n v _ hmem
    simp at hmem
  | cons p rest ih =>
    obtain ⟨m, w⟩ := p
    intro acc n v hnd hmem ho hacc
    simp only [List.map_cons, List.nodup_cons] at hnd
    obtain ⟨hmrest, hndrest⟩ := hnd
    simp only [serializeRecordFields]
    rcases List.mem_cons.mp hmem with he | ht
    · injection he with hn hv
      subst hn
      subst hv
      rw [if_pos ho]
      exact not_mem_keys_serializeRecordFields rest acc _ hacc hmrest
    · by_cases how : isOmitted (_spec_asjson w)
      · rw [if_pos how]
        exact ih acc n v hndrest ht ho hacc
      · rw [if_neg how]
        apply ih _ n v hndrest ht ho
        intro hk
        rcases (mem_dictKeys_dictSet acc (as_camel_case m) _ _).mp hk with he' | hm'
        · apply hmrest
          rw [← he']
          exact List.mem_map_of_mem _ ht
        · exact hacc hm'

theorem kept_field_mem_serializeRecordFields (fields : List (String × GenericValue)) :
    ∀ (acc : List (String × JsonValue)) (n : String) (v : GenericValue),
    (fields.map (fun p => as_camel_case p.1)).Nodup → (n, v) ∈ fields →
    isOmitted (_spec_asjson v) = false →
    (as_camel_case n, _spec_asjson v) ∈ serializeRecordFields acc fields := by
  induction fields with
  | nil =>
    intro acc n v _ hmem
    simp at hmem
  | cons p rest ih =>
    obtain ⟨m, w⟩ := p
    intro acc n v hnd hmem ho
    simp only [List.map_cons, List.nodup_cons] at hnd
    obtain ⟨hmrest, hndrest⟩ := hnd
    simp only [serializeRecordFields]
    rcases List.mem_cons.mp hmem with he | ht
    · injection he with hn hv
      subst hn
      subst hv
      rw [if_neg (by simp [ho])]
      exact mem_serializeRecordFields_of_mem_acc rest _ _ _
        (mem_dictSet_self acc _ _) hmrest
    · by_cases how : isOmitted (_spec_asjson w)
      · rw [if_pos how]
        exact ih acc n v hndrest ht ho
      · rw [if_neg how]
        exact ih _ n v hndrest ht ho

/-! ## Pipeline-shape lemmas (for the name-stripping pass) -/

theorem asObj_eq_some (v : JsonValue) (o : List (String × JsonValue)) :
    asObj v = some o ↔ v = JsonValue.obj o := by
  cases v <;> simp [asObj]

theorem dictKeys_dictSet_of_get {α : Type} (d : List (String × α)) (k : String) (v v' : α)
    (h : dictGet d k = some v) : dictKeys (dictSet d k v') = dictKeys d := by
  induction d with
  | nil => simp at h
  | cons p rest ih =>
    by_cases hp : p.1 = k
    · simp [dictSet, hp, dictKeys]
    · simp only [dictGet_cons, if_neg hp] at h
      simp only [dictSet, if_neg hp, dictKeys, List.map_cons] at ih ⊢
      rw [ih h]

theorem dictKeys_serializeDictEntries (entries : List (String × GenericValue)) :
    dictKeys (serializeDictEntries entries) = entries.map Prod.fst := by
  rw [serializeDictEntries_eq_map]
  induction entries with
  | nil => rfl
  | cons p rest ih =>
    obtain ⟨k, v⟩ := p
    simp only [dictKeys, List.map_cons] at ih ⊢
    rw [ih]

theorem length_serializeDictEntries (entries : List (String × GenericValue)) :
    (serializeDictEntries entries).length = entries.length := by
  rw [serializeDictEntries_eq_map, List.length_map]

/-- The baseline document the reflective serializer produces for a whole
specification: a `servers` object, a `channels` object, and — when
components are present — a `components` object. -/
theorem spec_baseline (spec : Specification) :
    asObj (_spec_asjson spec.toGeneric) =
      some ([("servers",
              JsonValue.obj (serializeDictEntries
                (spec.servers.map (fun p => (p.1, p.2.toGeneric))))),
             ("channels",
              JsonValue.obj (serializeDictEntries
                (spec.channels.map (fun p => (p.1, p.2.toGeneric)))))] ++
            (match spec.components with
             | none => []
             | some c => [("components", _spec_asjson c.toGeneric)])) := by
  obtain ⟨sv, ch, comp⟩ := spec
  cases comp <;> rfl

theorem update_component_payload_eq (json : List (String × JsonValue)) (mn : String)
    (s : JsonValue) (json' : List (String × JsonValue))
    (h : update_component_payload json mn s = some json') :
    ∃ components messages message,
      dictGet json "components" = some (JsonValue.obj components) ∧
      dictGet components "messages" = some (JsonValue.obj messages) ∧
      dictGet messages mn = some (JsonValue.obj message) ∧
      json' = dictSet json "components" (.obj (dictSet components "messages"
        (.obj (dictSet messages mn (.obj (dictSet message "payload" s)))))) := by
  simp only [update_component_payload] at h
  cases hc1 : dictGet json "components" with
  | none => simp [hc1] at h
  | some componentsV =>
    simp only [hc1] at h
    cases hc2 : asObj componentsV with
    | none => simp [hc2] at h
    | some components =>
      simp only [hc2] at h
      cases hc3 : dictGet components "messages" with
      | none => simp [hc3] at h
      | some messagesV =>
        simp only [hc3] at h
        cases hc4 : asObj messagesV with
        | none => simp [hc4] at h
        | some messages =>
          simp only [hc4] at h
          cases hc5 : dictGet messages mn with
          | none => simp [hc5] at h
          | some messageV =>
            simp only [hc5] at h
            cases hc6 : asObj messageV with
            | none => simp [hc6] at h
            | some message =>
              simp only [hc6, Option.some.injEq] at h
              rw [asObj_eq_some] at hc2 hc4 hc6
              subst hc2
              subst hc4
              subst hc6
              exact ⟨components, messages, message, rfl, hc3, hc5, h.symm⟩

theorem dictGet_apply_components_payloads_ne (entries : List (String × Message)) :
    ∀ (json : List (String × JsonValue)) (msgs : List (String × String))
      (json' : List (String × JsonValue)) (msgs' : List (String × String)) (k : String),
    apply_components_payloads entries json msgs = some (json', msgs') →
    k ≠ "components" → dictGet json' k = dictGet json k := by
  induction entries with
  | nil =>
    intro json msgs json' msgs' k h _
    simp only [apply_components_payloads, Option.some.injEq, Prod.mk.injEq] at h
    rw [← h.1]
  | cons p rest ih =>
    obtain ⟨key, msg⟩ := p
    intro json msgs json' msgs' k h hk
    simp only [apply_components_payloads] at h
    cases hpay : msg.payload with
    | none =>
      simp only [hpay] at h
      exact ih _ _ _ _ k h hk
    | some pl =>
      simp only [hpay] at h
      cases hup : update_component_payload json key (type_as_jsonschema pl) with
      | none =>
        simp only [hup] at h
        exact absurd h (by simp)
      | some json1 =>
        simp only [hup] at h
        have hstep : dictGet json1 k = dictGet json k := by
          obtain ⟨c, m, mo, _, _, _, hj⟩ := update_component_payload_eq _ _ _ _ hup
          rw [hj, dictGet_dictSet_ne _ _ _ _ hk]
        rw [← hstep]
        exact ih _ _ _ _ k h hk

theorem popNames_spec (l : List (String × JsonValue)) :
    ∀ l', popNames l = some l' →
    dictKeys l' = dictKeys l ∧
    ∀ p ∈ l', ∃ o, p.2 = JsonValue.obj o ∧ "name" ∉ dictKeys o := by
  induction l with
  | nil =>
    intro l' h
    simp only [popNames, Option.some.injEq] at h
    subst h
    exact ⟨rfl, by simp⟩
  | cons p rest ih =>
    obtain ⟨k, v⟩ := p
    intro l' h
    simp only [popNames] at h
    cases ho : asObj v with
    | none => simp [ho] at h
    | some o =>
    simp only [ho] at h
    cases hrest' : popNames rest with
    | none => simp [hrest'] at h
    | some rest' =>
    simp only [hrest', Option.some.injEq] at h
    rw [asObj_eq_some] at ho
    subst ho
    subst h
    obtain ⟨hkeys, hmem⟩ := ih rest' hrest'
    constructor
    · simp only [dictKeys, List.map_cons] at hkeys ⊢
      rw [hkeys]
    · intro q hq
      rcases List.mem_cons.mp hq with he | ht
      · subst he
        exact ⟨dictPop o "name", rfl, not_mem_dictKeys_dictPop _ _⟩
      · exact hmem q ht

theorem strip_server_names_eq (json json' : List (String × JsonValue))
    (h : strip_server_names json = some json') :
    ∃ servers servers', dictGet json "servers" = some (JsonValue.obj servers) ∧
      popNames servers = some servers' ∧
      json' = dictSet json "servers" (JsonValue.obj servers') := by
  simp only [strip_server_names] at h
  cases hsv : dictGet json "servers" with
  | none => simp [hsv] at h
  | some sv =>
    simp only [hsv] at h
    cases hservers : asObj sv with
    | none => simp [hservers] at h
    | some servers =>
      simp only [hservers] at h
      cases hpop : popNames servers with
      | none => simp [hpop] at h
      | some servers' =>
        simp only [hpop, Option.some.injEq] at h
        rw [asObj_eq_some] at hservers
        subst hservers
        exact ⟨servers, servers', rfl, hpop, h.symm⟩

theorem strip_and_resolve_channels_eq (json : List (String × JsonValue))
    (spec : Specification) (msgs : List (String × String))
    (json' : List (String × JsonValue))
    (h : strip_and_resolve_channels json spec msgs = some json') :
    ∃ channels channels', dictGet json "channels" = some (JsonValue.obj channels) ∧
      process_channels channels (spec.channels.map Prod.snd) msgs = some channels' ∧
      json' = dictSet json "channels" (JsonValue.obj channels') := by
  simp only [strip_and_resolve_channels] at h
  cases hcv : dictGet json "channels" with
  | none => simp [hcv] at h
  | some cv =>
    simp only [hcv] at h
    cases hchannels : asObj cv with
    | none => simp [hchannels] at h
    | some channels =>
      simp only [hchannels] at h
      cases hproc : process_channels channels (spec.channels.map Prod.snd) msgs with
      | none => simp [hproc] at h
      | some channels' =>
        simp only [hproc, Option.some.injEq] at h
        rw [asObj_eq_some] at hchannels
        subst hchannels
        exact ⟨channels, channels', rfl, hproc, h.symm⟩

theorem process_operation_preserves (cd : List (String × JsonValue)) (key : String)
    (op : Option Operation) (msgs : List (String × String))
    (cd' : List (String × JsonValue))
    (h : process_operation cd key op msgs = some cd') :
    dictKeys cd' = dictKeys cd := by
  simp only [process_operation] at h
  cases hg : dictGet cd key with
  | none =>
    simp only [hg, Option.some.injEq] at h
    rw [← h]
  | some v =>
    simp only [hg] at h
    cases ho : asObj v with
    | none => simp [ho] at h
    | some od =>
      simp only [ho] at h
      cases hs : set_operation_message od op msgs with
      | none => simp [hs] at h
      | some od2 =>
        simp only [hs, Option.some.injEq] at h
        rw [← h]
        exact dictKeys_dictSet_of_get _ _ _ _ hg

theorem process_channels_spec (l : List (String × JsonValue)) :
    ∀ (chs : List Channel) (msgs : List (String × String))
      (l' : List (String × JsonValue)),
    l.length ≤ chs.length → process_channels l chs msgs = some l' →
    dictKeys l' = dictKeys l ∧
    ∀ p ∈ l', ∃ o, p.2 = JsonValue.obj o ∧ "name" ∉ dictKeys o := by
  induction l with
  | nil =>
    intro chs msgs l' _ h
    cases chs with
    | nil =>
      simp only [process_channels, Option.some.injEq] at h
      subst h
      exact ⟨rfl, by simp⟩
    | cons c cs =>
      simp only [process_channels, Option.some.injEq] at h
      subst h
      exact ⟨rfl, by simp⟩
  | cons p rest ih =>
    obtain ⟨k, v⟩ := p
    intro chs msgs l' hlen h
    cases chs with
    | nil => simp at hlen
    | cons ch chs' =>
      simp only [process_channels] at h
      cases hcd : asObj v with
      | none => simp [hcd] at h
      | some cd =>
      simp only [hcd] at h
      cases hcd2 : process_operation (dictPop cd "name") "subscribe" ch.subscribe msgs with
      | none => simp [hcd2] at h
      | some cd2 =>
      simp only [hcd2] at h
      cases hcd3 : process_operation cd2 "publish" ch.publish msgs with
      | none => simp [hcd3] at h
      | some cd3 =>
      simp only [hcd3] at h
      cases hrest' : process_channels rest chs' msgs with
      | none => simp [hrest'] at h
      | some rest' =>
      simp only [hrest', Option.some.injEq] at h
      rw [asObj_eq_some] at hcd
      subst hcd
      subst h
      have hlen' : rest.length ≤ chs'.length := by
        simpa using Nat.le_of_succ_le_succ (by simpa using hlen)
      obtain ⟨hkeys, hmem⟩ := ih chs' msgs rest' hlen' hrest'
      have hname1 : "name" ∉ dictKeys (dictPop cd "name") :=
        not_mem_dictKeys_dictPop _ _
      have hk2 : dictKeys cd2 = dictKeys (dictPop cd "name") :=
        process_operation_preserves _ _ _ _ _ hcd2
      have hk3 : dictKeys cd3 = dictKeys cd2 :=
        process_operation_preserves _ _ _ _ _ hcd3
      constructor
      · simp only [dictKeys, List.map_cons] at hkeys ⊢
        rw [hkeys]
      · intro q hq
        rcases List.mem_cons.mp hq with he | ht
        · subst he
          refine ⟨cd3, rfl, ?_⟩
          rw [hk3, hk2]
          exact hname1
        · exact hmem q ht

/-! ## Claim theorems -/

/-- **C6** (omission law): in the output mapping the generic serializer
produces for a structured record (whose camelCased field names are pairwise
distinct, as in every dataclass of the specification tree), a field whose
recursively serialized value is null or the empty string is absent, and a
field with any other serialized value — including `0`, `false`, an empty
mapping or an empty sequence, none of which `isOmitted` — is present under
its camelCase-converted name with that value. -/
theorem C6_record_omission_law (fields : List (String × GenericValue))
    (out : List (String × JsonValue))
    (hout : _spec_asjson (.record fields) = .obj out)
    (hnd : (fields.map (fun p => as_camel_case p.1)).Nodup)
    (n : String) (v : GenericValue) (hmem : (n, v) ∈ fields) :
    (isOmitted (_spec_asjson v) = true → as_camel_case n ∉ dictKeys out) ∧
    (isOmitted (_spec_asjson v) = false → (as_camel_case n, _spec_asjson v) ∈ out) := by
  have hout' : serializeRecordFields [] fields = out := by
    simp only [_spec_asjson] at hout
    injection hout
  subst hout'
  constructor
  · intro ho
    exact omitted_field_not_mem_keys fields [] n v hnd hmem ho (by simp [dictKeys])
  · intro ho
    exact kept_field_mem_serializeRecordFields fields [] n v hnd hmem ho

/-- Witness for C6 at a concrete record: the null-valued field `gone` is
absent from the output and the kept field would be present. -/
theorem C6_record_omission_law_witness :
    (isOmitted (_spec_asjson (.scalar .null)) = true →
      as_camel_case "gone" ∉ dictKeys [("snakeName", JsonValue.str "x")]) ∧
    (isOmitted (_spec_asjson (.scalar .null)) = false →
      (as_camel_case "gone", _spec_asjson (.scalar .null)) ∈
        [("snakeName", JsonValue.str "x")]) :=
  C6_record_omission_law
    [("snake_name", .scalar (.str "x")), ("gone", .scalar .null)]
    [("snakeName", .str "x")] rfl (by decide) "gone" (.scalar .null)
    (List.mem_cons_of_mem _ (List.mem_cons_self _ _))

/-- **C8** (determinism): the compiler is a pure function of the input
specification — compiling equal specifications yields equal document
values, hence byte-identical rendered output. -/
theorem C8_determinism (s1 s2 : Specification) (h : s1 = s2) :
    spec_asjson s1 = spec_asjson s2 := by
  rw [h]

/-- Witness for C8 at a concrete specification. -/
theorem C8_determinism_witness :
    spec_asjson ⟨[], [], none⟩ = spec_asjson ⟨[], [], none⟩ :=
  C8_determinism ⟨[], [], none⟩ ⟨[], [], none⟩ rfl

/-- **C9** (mappings keep every key): the null/empty-string omission rule
applies only to record fields; for an input mapping, every key is kept with
insertion order preserved, and an entry whose value serializes to null stays
in the output as an explicit null. -/
theorem C9_dict_entries_preserved (entries : List (String × GenericValue))
    (out : List (String × JsonValue))
    (hout : _spec_asjson (.dict entries) = .obj out) :
    dictKeys out = entries.map Prod.fst ∧
    (∀ p ∈ entries, (p.1, _spec_asjson p.2) ∈ out) ∧
    (∀ p ∈ entries, _spec_asjson p.2 = JsonValue.null → (p.1, JsonValue.null) ∈ out) := by
  have hout' : serializeDictEntries entries = out := by
    simp only [_spec_asjson] at hout
    injection hout
  subst hout'
  rw [serializeDictEntries_eq_map]
  refine ⟨?_, ?_, ?_⟩
  · induction entries with
    | nil => rfl
    | cons p rest ih =>
      obtain ⟨k, v⟩ := p
      simp only [dictKeys, List.map_cons] at ih ⊢
      simp [ih]
  · intro p hp
    exact List.mem_map_of_mem _ hp
  · intro p hp hnull
    refine List.mem_map.mpr ⟨p, hp, ?_⟩
    simp [hnull]

/-- Witness for C9 at a concrete mapping with a null-serializing value. -/
theorem C9_dict_entries_preserved_witness :
    ("a", JsonValue.null) ∈ ([("a", JsonValue.null)] : List (String × JsonValue)) :=
  (C9_dict_entries_preserved [("a", .scalar .null)] [("a", .null)] rfl).2.2
    ("a", .scalar .null) (List.mem_cons_self _ _) rfl

/-- **C1** (reference exactness): when an operation's message has a declared
name `n` (non-empty) that the name→key map resolves to `key`, the resolved
operation's message mapping is exactly the singleton
`{"$ref": "#/components/messages/<key>"}`, and neither a `payload` nor a
`contentType` key appears alongside the `$ref`. -/
theorem C1_reference_exact (operation_dict m : List (String × JsonValue))
    (op : Operation) (msg : Message) (json_spec_messages : List (String × String))
    (n key : String)
    (hm : dictGet operation_dict "message" = some (.obj m))
    (hmsg : op.message = some msg)
    (hname : msg.name = some n) (hne : n ≠ "")
    (hkey : dictGet json_spec_messages n = some key) :
    set_operation_message operation_dict (some op) json_spec_messages =
      some (dictSet (dictSet operation_dict "message" (.obj (dictPop m "contentType")))
        "message" (.obj [("$ref", .str ("#/components/messages/" ++ key))])) ∧
    dictGet (dictSet (dictSet operation_dict "message" (.obj (dictPop m "contentType")))
        "message" (.obj [("$ref", .str ("#/components/messages/" ++ key))])) "message" =
      some (.obj [("$ref", .str ("#/components/messages/" ++ key))]) ∧
    "payload" ∉ dictKeys [("$ref", JsonValue.str ("#/components/messages/" ++ key))] ∧
    "contentType" ∉ dictKeys [("$ref", JsonValue.str ("#/components/messages/" ++ key))] := by
  refine ⟨?_, dictGet_dictSet_self _ _ _, by simp [dictKeys], by simp [dictKeys]⟩
  simp only [set_operation_message, hm, asObj, message_ref_key, hmsg, hname,
    if_neg hne, hkey]

/-- Witness for C1 at the spec's end-to-end scenario operation. -/
theorem C1_reference_exact_witness :
    set_operation_message
        [("message", .obj [("name", .str "OrderCreated"), ("payload", .obj [])])]
        (some ⟨some ⟨some "OrderCreated", some PayloadType.string, none⟩⟩)
        [("OrderCreated", "order-created")] =
      some (dictSet (dictSet [("message", JsonValue.obj [("name", JsonValue.str "OrderCreated"),
          ("payload", JsonValue.obj [])])] "message"
          (JsonValue.obj (dictPop [("name", JsonValue.str "OrderCreated"),
            ("payload", JsonValue.obj [])] "contentType")))
        "message"
        (JsonValue.obj [("$ref", JsonValue.str ("#/components/messages/" ++ "order-created"))])) ∧
    dictGet (dictSet (dictSet [("message", JsonValue.obj [("name", JsonValue.str "OrderCreated"),
          ("payload", JsonValue.obj [])])] "message"
          (JsonValue.obj (dictPop [("name", JsonValue.str "OrderCreated"),
            ("payload", JsonValue.obj [])] "contentType")))
        "message"
        (JsonValue.obj [("$ref", JsonValue.str ("#/components/messages/" ++ "order-created"))]))
        "message" =
      some (JsonValue.obj [("$ref", JsonValue.str ("#/components/messages/" ++ "order-created"))]) ∧
    "payload" ∉ dictKeys [("$ref", JsonValue.str ("#/components/messages/" ++ "order-created"))] ∧
    "contentType" ∉
      dictKeys [("$ref", JsonValue.str ("#/components/messages/" ++ "order-created"))] :=
  C1_reference_exact
    [("message", .obj [("name", .str "OrderCreated"), ("payload", .obj [])])]
    [("name", .str "OrderCreated"), ("payload", .obj [])]
    ⟨some ⟨some "OrderCreated", some PayloadType.string, none⟩⟩
    ⟨some "OrderCreated", some PayloadType.string, none⟩
    [("OrderCreated", "order-created")] "OrderCreated" "order-created"
    rfl rfl rfl (by decide) rfl

/-- **C4**: the claim (and spec §4.3/§4.4) require the `Absent` case — here,
a channel whose subscribe operation has `message = None` — to compile
successfully, leaving the serialized operation as-is.  The code instead
raises an uncaught `KeyError`: the serializer omits the `None`-valued
`message` field, and `set_operation_message` unconditionally evaluates
`operation_dict['message']` before its `Absent` guards.  Both the whole
compile and the operation-level call are shown to fail on that input. -/
theorem C4_absent_message_keyerror :
    spec_asjson ⟨[], [("ch", ⟨"ch", some ⟨none⟩, none⟩)], none⟩ = none ∧
    set_operation_message [] (some ⟨none⟩) [] = none :=
  ⟨rfl, rfl⟩

/-- Counterexample to **C5** as stated: the compiled message does not keep
all its serialized fields — the serialized message of this operation has a
`contentType` field (second conjunct) which is absent from the compiled
message (third conjunct). -/
theorem C5_counterexample_contentType_dropped :
    set_operation_message
      [("message", .obj [("payload", .obj []), ("contentType", .str "application/json")])]
      (some ⟨some ⟨none, some PayloadType.string, some "application/json"⟩⟩) [] =
      some [("message", .obj [("payload", .obj [("type", .str "string")])])] ∧
    dictGet [("payload", JsonValue.obj []), ("contentType", JsonValue.str "application/json")]
      "contentType" = some (.str "application/json") ∧
    dictGet [("payload", JsonValue.obj [("type", JsonValue.str "string")])] "contentType" =
      none :=
  ⟨rfl, rfl, rfl⟩

/-- **C5 (amended)** (inline-payload fallback): for an operation whose
message has a payload but no resolvable declared name, the compiled
operation's message keeps its serialized fields *except `contentType`, which
the compiler always removes*, gains a `payload` field equal to the generated
JSON schema of that payload, and contains no `$ref` field. -/
theorem C5_amended_inline_payload (operation_dict m : List (String × JsonValue))
    (op : Operation) (msg : Message) (p : PayloadType)
    (json_spec_messages : List (String × String))
    (hm : dictGet operation_dict "message" = some (.obj m))
    (hmsg : op.message = some msg)
    (hnoref : message_ref_key msg json_spec_messages = none)
    (hp : msg.payload = some p)
    (href : "$ref" ∉ dictKeys m) :
    set_operation_message operation_dict (some op) json_spec_messages =
      some (dictSet (dictSet operation_dict "message" (.obj (dictPop m "contentType")))
        "message" (.obj (dictSet (dictPop m "contentType") "payload"
          (type_as_jsonschema p)))) ∧
    dictGet (dictSet (dictPop m "contentType") "payload" (type_as_jsonschema p)) "payload" =
      some (type_as_jsonschema p) ∧
    "$ref" ∉ dictKeys (dictSet (dictPop m "contentType") "payload" (type_as_jsonschema p)) ∧
    (∀ k, k ≠ "contentType" → k ≠ "payload" →
      dictGet (dictSet (dictPop m "contentType") "payload" (type_as_jsonschema p)) k =
        dictGet m k) := by
  refine ⟨?_, dictGet_dictSet_self _ _ _, ?_, ?_⟩
  · simp only [set_operation_message, hm, asObj, hmsg, hnoref, hp]
  · intro hmem
    rcases (mem_dictKeys_dictSet _ _ _ _).mp hmem with he | hm'
    · simp at he
    · exact href (mem_dictKeys_of_mem_dictPop _ _ _ hm')
  · intro k hct hpay
    rw [dictGet_dictSet_ne _ _ _ _ hpay, dictGet_dictPop_ne _ _ _ hct]

/-- Witness for the amended C5 at a concrete inline-payload operation. -/
theorem C5_amended_inline_payload_witness :
    set_operation_message
        [("message", .obj [("name", .str "Unmatched"), ("contentType", .str "text/plain")])]
        (some ⟨some ⟨some "Unmatched", some PayloadType.integer, some "text/plain"⟩⟩) [] =
      some (dictSet (dictSet [("message", .obj [("name", .str "Unmatched"),
          ("contentType", .str "text/plain")])] "message"
          (.obj (dictPop [("name", JsonValue.str "Unmatched"),
            ("contentType", JsonValue.str "text/plain")] "contentType")))
        "message" (.obj (dictSet (dictPop [("name", JsonValue.str "Unmatched"),
            ("contentType", JsonValue.str "text/plain")] "contentType") "payload"
          (type_as_jsonschema PayloadType.integer)))) ∧
    dictGet (dictSet (dictPop [("name", JsonValue.str "Unmatched"),
        ("contentType", JsonValue.str "text/plain")] "contentType") "payload"
        (type_as_jsonschema PayloadType.integer)) "payload" =
      some (type_as_jsonschema PayloadType.integer) ∧
    "$ref" ∉ dictKeys (dictSet (dictPop [("name", JsonValue.str "Unmatched"),
        ("contentType", JsonValue.str "text/plain")] "contentType") "payload"
        (type_as_jsonschema PayloadType.integer)) ∧
    (∀ k, k ≠ "contentType" → k ≠ "payload" →
      dictGet (dictSet (dictPop [("name", JsonValue.str "Unmatched"),
          ("contentType", JsonValue.str "text/plain")] "contentType") "payload"
          (type_as_jsonschema PayloadType.integer)) k =
        dictGet [("name", JsonValue.str "Unmatched"),
          ("contentType", JsonValue.str "text/plain")] k) :=
  C5_amended_inline_payload
    [("message", .obj [("name", .str "Unmatched"), ("contentType", .str "text/plain")])]
    [("name", .str "Unmatched"), ("contentType", .str "text/plain")]
    ⟨some ⟨some "Unmatched", some PayloadType.integer, some "text/plain"⟩⟩
    ⟨some "Unmatched", some PayloadType.integer, some "text/plain"⟩
    PayloadType.integer [] rfl rfl rfl rfl (by simp [dictKeys])

/-! ## Registry-fold lemmas (the name→key map of `spec_asjson`) -/

theorem dictGet_isSome_of_apply_components_payloads (entries : List (String × Message)) :
    ∀ (json : List (String × JsonValue)) (msgs : List (String × String))
      (json' : List (String × JsonValue)) (msgs' : List (String × String)) (n : String),
    apply_components_payloads entries json msgs = some (json', msgs') →
    (dictGet msgs n).isSome = true → (dictGet msgs' n).isSome = true := by
  induction entries with
  | nil =>
    intro json msgs json' msgs' n h hsome
    simp only [apply_components_payloads, Option.some.injEq, Prod.mk.injEq] at h
    rw [← h.2]
    exact hsome
  | cons p rest ih =>
    obtain ⟨key, msg⟩ := p
    intro json msgs json' msgs' n h hsome
    simp only [apply_components_payloads] at h
    cases hpay : msg.payload with
    | none =>
      simp only [hpay] at h
      exact ih _ _ _ _ n h hsome
    | some pl =>
      simp only [hpay] at h
      cases hup : update_component_payload json key (type_as_jsonschema pl) with
      | none =>
        simp only [hup] at h
        exact absurd h (by simp)
      | some json1 =>
        simp only [hup] at h
        cases hname : msg.name with
        | none =>
          simp only [hname] at h
          exact ih _ _ _ _ n h hsome
        | some nm =>
          simp only [hname] at h
          by_cases hnm : nm = ""
          · simp only [hnm, if_pos] at h
            exact ih _ _ _ _ n h hsome
          · rw [if_neg hnm] at h
            apply ih _ _ _ _ n h
            by_cases hn : n = nm
            · subst hn
              rw [dictGet_dictSet_self]
              rfl
            · rw [dictGet_dictSet_ne _ _ _ _ hn]
              exact hsome

theorem dictGet_apply_components_payloads_untouched (entries : List (String × Message)) :
    ∀ (json : List (String × JsonValue)) (msgs : List (String × String))
      (json' : List (String × JsonValue)) (msgs' : List (String × String)) (n : String),
    apply_components_payloads entries json msgs = some (json', msgs') →
    (∀ q ∈ entries, q.2.name = some n → q.2.payload = none) →
    dictGet msgs' n = dictGet msgs n := by
  induction entries with
  | nil =>
    intro json msgs json' msgs' n h _
    simp only [apply_components_payloads, Option.some.injEq, Prod.mk.injEq] at h
    rw [← h.2]
  | cons p rest ih =>
    obtain ⟨key, msg⟩ := p
    intro json msgs json' msgs' n h hnone
    simp only [apply_components_payloads] at h
    cases hpay : msg.payload with
    | none =>
      simp only [hpay] at h
      exact ih _ _ _ _ n h (fun q hq => hnone q (List.mem_cons_of_mem _ hq))
    | some pl =>
      simp only [hpay] at h
      cases hup : update_component_payload json key (type_as_jsonschema pl) with
      | none =>
        simp only [hup] at h
        exact absurd h (by simp)
      | some json1 =>
        simp only [hup] at h
        cases hname : msg.name with
        | none =>
          simp only [hname] at h
          exact ih _ _ _ _ n h (fun q hq => hnone q (List.mem_cons_of_mem _ hq))
        | some nm =>
          simp only [hname] at h
          by_cases hnm : nm = ""
          · simp only [hnm, if_pos] at h
            exact ih _ _ _ _ n h (fun q hq => hnone q (List.mem_cons_of_mem _ hq))
          · rw [if_neg hnm] at h
            have hrest := ih _ _ _ _ n h (fun q hq => hnone q (List.mem_cons_of_mem _ hq))
            rw [hrest]
            have hne : n ≠ nm := by
              intro he
              subst he
              have := hnone (key, msg) (List.mem_cons_self _ _) hname
              rw [this] at hpay
              exact absurd hpay (by simp)
            rw [dictGet_dictSet_ne _ _ _ _ hne]

/-- Counterexample to **C3** as stated: a components/messages entry whose
message has the non-empty declared name `N` but no payload is not recorded
in the name→key map (first two conjuncts: the registry fold yields an empty
map), so the compiled document of a specification whose operation references
`N` keeps the message inline instead of a `$ref` (third conjunct). -/
theorem C3_counterexample_no_payload_not_recorded :
    apply_components_payloads [("k1", ⟨some "N", none, none⟩)] [] [] = some ([], []) ∧
    dictGet ([] : List (String × String)) "N" = none ∧
    spec_asjson ⟨[], [("ch", ⟨"ch", none, some ⟨some ⟨some "N", none, none⟩⟩⟩)],
        some ⟨some [("k1", ⟨some "N", none, none⟩)]⟩⟩ =
      some [("servers", .obj []),
            ("channels", .obj [("ch", .obj [("publish",
              .obj [("message", .obj [("name", .str "N")])])])]),
            ("components", .obj [("messages", .obj [("k1",
              .obj [("name", .str "N")])])])] :=
  ⟨rfl, rfl, rfl⟩

/-- **C3 (amended)** (registry build): the name→key map records an entry for
a declared non-empty message name only when that components/messages entry
*also has a payload set*; for every such payload-bearing named entry, the
map resolves the name. -/
theorem C3_amended_registry_records_payload_named (entries : List (String × Message))
    (json json' : List (String × JsonValue)) (msgs msgs' : List (String × String))
    (k : String) (m : Message) (n : String)
    (h : apply_components_payloads entries json msgs = some (json', msgs'))
    (hmem : (k, m) ∈ entries) (hname : m.name = some n) (hne : n ≠ "")
    (hp : m.payload.isSome = true) :
    (dictGet msgs' n).isSome = true := by
  induction entries generalizing json msgs with
  | nil => simp at hmem
  | cons p rest ih =>
    obtain ⟨key, msg⟩ := p
    simp only [apply_components_payloads] at h
    rcases List.mem_cons.mp hmem with he | ht
    · injection he with hk hm
      subst hk
      subst hm
      obtain ⟨pl, hpl⟩ := Option.isSome_iff_exists.mp hp
      simp only [hpl] at h
      cases hup : update_component_payload json k (type_as_jsonschema pl) with
      | none =>
        simp only [hup] at h
        exact absurd h (by simp)
      | some json1 =>
        simp only [hup] at h
        simp only [hname] at h
        rw [if_neg hne] at h
        exact dictGet_isSome_of_apply_components_payloads rest _ _ _ _ n h
          (by rw [dictGet_dictSet_self]; rfl)
    · cases hpay : msg.payload with
      | none =>
        simp only [hpay] at h
        exact ih _ _ h ht
      | some pl =>
        simp only [hpay] at h
        cases hup : update_component_payload json key (type_as_jsonschema pl) with
        | none =>
          simp only [hup] at h
          exact absurd h (by simp)
        | some json1 =>
          simp only [hup] at h
          cases hname' : msg.name with
          | none =>
            simp only [hname'] at h
            exact ih _ _ h ht
          | some nm =>
            simp only [hname'] at h
            by_cases hnm : nm = ""
            · simp only [hnm, if_pos] at h
              exact ih _ _ h ht
            · rw [if_neg hnm] at h
              exact ih _ _ h ht

/-- Witness for the amended C3: a named entry with a payload is recorded. -/
theorem C3_amended_registry_records_payload_named_witness :
    (dictGet [("N", "k1")] "N").isSome = true :=
  C3_amended_registry_records_payload_named
    [("k1", ⟨some "N", some PayloadType.string, none⟩)]
    [("components", .obj [("messages", .obj [("k1", .obj [])])])]
    [("components", .obj [("messages", .obj [("k1",
      .obj [("payload", .obj [("type", .str "string")])])])])]
    [] [("N", "k1")] "k1" ⟨some "N", some PayloadType.string, none⟩ "N"
    rfl (List.mem_cons_self _ _) rfl (by decide) rfl

/-- Counterexample to **C2** as stated: two distinct components/messages
entries (`k1`, `k2`) declare the same non-empty name `Dup`, yet compilation
does not fail — it produces a complete document (in which the reference
resolves to the later key `k2`). -/
theorem C2_counterexample_duplicate_name_no_error :
    spec_asjson ⟨[],
        [("ch", ⟨"ch", none, some ⟨some ⟨some "Dup", some PayloadType.string, none⟩⟩⟩)],
        some ⟨some [("k1", ⟨some "Dup", some PayloadType.string, none⟩),
                    ("k2", ⟨some "Dup", some PayloadType.integer, none⟩)]⟩⟩ =
      some [("servers", .obj []),
            ("channels", .obj [("ch", .obj [("publish",
              .obj [("message", .obj [("$ref", .str "#/components/messages/k2")])])])]),
            ("components", .obj [("messages", .obj [
              ("k1", .obj [("name", .str "Dup"),
                           ("payload", .obj [("type", .str "string")])]),
              ("k2", .obj [("name", .str "Dup"),
                           ("payload", .obj [("type", .str "integer")])])])])] :=
  rfl

/-- **C2 (amended)**: when two distinct components/messages entries declare
the same non-empty message name (each with a payload), the registry build
raises no error: it completes and maps the duplicated name to the *later*
entry's key. -/
theorem C2_amended_duplicate_name_builds (k1 k2 n : String) (m1 m2 : Message)
    (p1 p2 : PayloadType)
    (json json' : List (String × JsonValue)) (msgs' : List (String × String))
    (hn1 : m1.name = some n) (hn2 : m2.name = some n) (hne : n ≠ "")
    (hp1 : m1.payload = some p1) (hp2 : m2.payload = some p2)
    (h : apply_components_payloads [(k1, m1), (k2, m2)] json [] = some (json', msgs')) :
    dictGet msgs' n = some k2 := by
  simp only [apply_components_payloads, hp1, hn1, if_neg hne] at h
  cases hup1 : update_component_payload json k1 (type_as_jsonschema p1) with
  | none =>
    simp only [hup1] at h
    exact absurd h (by simp)
  | some json1 =>
    simp only [hup1] at h
    simp only [apply_components_payloads, hp2, hn2, if_neg hne] at h
    cases hup2 : update_component_payload json1 k2 (type_as_jsonschema p2) with
    | none =>
      simp only [hup2] at h
      exact absurd h (by simp)
    | some json2 =>
      simp only [hup2] at h
      simp only [apply_components_payloads, Option.some.injEq, Prod.mk.injEq] at h
      rw [← h.2, dictGet_dictSet_self]

/-- Witness for the amended C2 at two concrete duplicate-named entries. -/
theorem C2_amended_duplicate_name_builds_witness :
    dictGet [("Dup", "k2")] "Dup" = some "k2" :=
  C2_amended_duplicate_name_builds "k1" "k2" "Dup"
    ⟨some "Dup", some PayloadType.string, none⟩
    ⟨some "Dup", some PayloadType.integer, none⟩
    PayloadType.string PayloadType.integer
    [("components", .obj [("messages", .obj [("k1", .obj []), ("k2", .obj [])])])]
    [("components", .obj [("messages", .obj [
      ("k1", .obj [("payload", .obj [("type", .str "string")])]),
      ("k2", .obj [("payload", .obj [("type", .str "integer")])])])])]
    [("Dup", "k2")]
    rfl rfl (by decide) rfl rfl rfl

/-- **C10** (last writer wins): when several components/messages entries
share a declared non-empty name, the registry fold raises no error and the
name resolves to the key of the entry that comes last in insertion order
among those with a payload set (later entries overwrite earlier ones via
dict assignment). -/
theorem C10_duplicate_name_last_writer_wins (l1 l2 : List (String × Message))
    (k n : String) (m : Message)
    (json json' : List (String × JsonValue)) (msgs msgs' : List (String × String))
    (h : apply_components_payloads (l1 ++ (k, m) :: l2) json msgs = some (json', msgs'))
    (hname : m.name = some n) (hne : n ≠ "") (hp : m.payload.isSome = true)
    (hlast : ∀ q ∈ l2, q.2.name = some n → q.2.payload = none) :
    dictGet msgs' n = some k := by
  induction l1 generalizing json msgs with
  | nil =>
    rw [List.nil_append] at h
    obtain ⟨pl, hpl⟩ := Option.isSome_iff_exists.mp hp
    simp only [apply_components_payloads, hpl, hname, if_neg hne] at h
    cases hup : update_component_payload json k (type_as_jsonschema pl) with
    | none =>
      simp only [hup] at h
      exact absurd h (by simp)
    | some json1 =>
      simp only [hup] at h
      have := dictGet_apply_components_payloads_untouched l2 _ _ _ _ n h hlast
      rw [this, dictGet_dictSet_self]
  | cons p l1' ih =>
    obtain ⟨key, msg⟩ := p
    rw [List.cons_append] at h
    simp only [apply_components_payloads] at h
    cases hpay : msg.payload with
    | none =>
      simp only [hpay] at h
      exact ih _ _ h
    | some pl =>
      simp only [hpay] at h
      cases hup : update_component_payload json key (type_as_jsonschema pl) with
      | none =>
        simp only [hup] at h
        exact absurd h (by simp)
      | some json1 =>
        simp only [hup] at h
        cases hname' : msg.name with
        | none =>
          simp only [hname'] at h
          exact ih _ _ h
        | some nm =>
          simp only [hname'] at h
          by_cases hnm : nm = ""
          · simp only [hnm, if_pos] at h
            exact ih _ _ h
          · rw [if_neg hnm] at h
            exact ih _ _ h

/-- **C7** (name stripping): in the compiled document, every server entry
and every channel entry has no `name` key, and the mapping keys (server ids,
channel ids) are preserved verbatim, in order, from the input
specification. -/
theorem C7_name_stripping (spec : Specification) (json : List (String × JsonValue))
    (h : spec_asjson spec = some json) :
    ∃ servers channels,
      dictGet json "servers" = some (JsonValue.obj servers) ∧
      dictGet json "channels" = some (JsonValue.obj channels) ∧
      dictKeys servers = dictKeys spec.servers ∧
      dictKeys channels = dictKeys spec.channels ∧
      (∀ p ∈ servers, ∃ o, p.2 = JsonValue.obj o ∧ "name" ∉ dictKeys o) ∧
      (∀ p ∈ channels, ∃ o, p.2 = JsonValue.obj o ∧ "name" ∉ dictKeys o) := by
  simp only [spec_asjson] at h
  cases h0 : asObj (_spec_asjson spec.toGeneric) with
  | none => simp [h0] at h
  | some json0 =>
  simp only [h0] at h
  cases h1 : apply_components_payloads (spec_messages_dict spec) json0 [] with
  | none => simp [h1] at h
  | some pr =>
  obtain ⟨json1, msgs⟩ := pr
  simp only [h1] at h
  cases h2 : strip_server_names json1 with
  | none => simp [h2] at h
  | some json2 =>
  simp only [h2] at h
  have hb := spec_baseline spec
  rw [h0] at hb
  injection hb with hb
  obtain ⟨servers, servers', hsget, hpop, hjson2⟩ := strip_server_names_eq _ _ h2
  obtain ⟨channels, channels', hcget, hproc, hjson⟩ := strip_and_resolve_channels_eq _ _ _ _ h
  have hs1 : dictGet json1 "servers" = dictGet json0 "servers" :=
    dictGet_apply_components_payloads_ne _ _ _ _ _ "servers" h1 (by decide)
  have hc1 : dictGet json1 "channels" = dictGet json0 "channels" :=
    dictGet_apply_components_payloads_ne _ _ _ _ _ "channels" h1 (by decide)
  have hs0 : dictGet json0 "servers" =
      some (JsonValue.obj (serializeDictEntries
        (spec.servers.map (fun p => (p.1, p.2.toGeneric))))) := by
    rw [hb]
    rfl
  have hc0 : dictGet json0 "channels" =
      some (JsonValue.obj (serializeDictEntries
        (spec.channels.map (fun p => (p.1, p.2.toGeneric))))) := by
    rw [hb]
    rfl
  have hsv : servers = serializeDictEntries
      (spec.servers.map (fun p => (p.1, p.2.toGeneric))) := by
    have hx := hsget.symm.trans (hs1.trans hs0)
    injection hx with hx
    injection hx with hx
  have hcb : dictGet json2 "channels" =
      some (JsonValue.obj (serializeDictEntries
        (spec.channels.map (fun p => (p.1, p.2.toGeneric))))) := by
    rw [hjson2, dictGet_dictSet_ne _ _ _ _ (by decide), hc1, hc0]
  have hcv : channels = serializeDictEntries
      (spec.channels.map (fun p => (p.1, p.2.toGeneric))) := by
    have hx := hcget.symm.trans hcb
    injection hx with hx
    injection hx with hx
  subst hsv
  subst hcv
  obtain ⟨hskeys, hsmem⟩ := popNames_spec _ _ hpop
  have hlen : (serializeDictEntries
      (spec.channels.map (fun p => (p.1, p.2.toGeneric)))).length ≤
      (spec.channels.map Prod.snd).length := by
    rw [length_serializeDictEntries, List.length_map, List.length_map]
  obtain ⟨hckeys, hcmem⟩ := process_channels_spec _ _ _ _ hlen hproc
  refine ⟨servers', channels', ?_, ?_, ?_, ?_, hsmem, hcmem⟩
  · rw [hjson, dictGet_dictSet_ne _ _ _ _ (by decide), hjson2, dictGet_dictSet_self]
  · rw [hjson, dictGet_dictSet_self]
  · rw [hskeys, dictKeys_serializeDictEntries, List.map_map]
    rfl
  · rw [hckeys, dictKeys_serializeDictEntries, List.map_map]
    rfl

/-- Witness for C7 at a concrete one-server specification: the compiled
server entry for `dev` has no `name` key. -/
theorem C7_name_stripping_witness :
    "name" ∉ dictKeys [("url", JsonValue.str "localhost"),
      ("protocol", JsonValue.str "kafka")] := by
  obtain ⟨s, c, h1, h2, h3, h4, h5, h6⟩ :=
    C7_name_stripping ⟨[("dev", ⟨"dev", "localhost", "kafka", none⟩)], [], none⟩
      [("servers", .obj [("dev", .obj [("url", .str "localhost"),
        ("protocol", .str "kafka")])]), ("channels", .obj [])] rfl
  have h1' : dictGet [("servers", JsonValue.obj [("dev", JsonValue.obj
      [("url", JsonValue.str "localhost"), ("protocol", JsonValue.str "kafka")])]),
      ("channels", JsonValue.obj [])] "servers" =
      some (JsonValue.obj [("dev", JsonValue.obj [("url", JsonValue.str "localhost"),
        ("protocol", JsonValue.str "kafka")])]) := rfl
  have hx := h1.symm.trans h1'
  injection hx with hx
  injection hx with hx
  obtain ⟨o, ho, hno⟩ := h5 ("dev", JsonValue.obj [("url", JsonValue.str "localhost"),
      ("protocol", JsonValue.str "kafka")]) (by rw [hx]; exact List.mem_cons_self _ _)
  injection ho with ho
  rw [← ho] at hno
  exact hno

/-- Witness for C10: with duplicate-named entries `k1` then `k2`, the name
resolves to `k2`. -/
theorem C10_duplicate_name_last_writer_wins_witness :
    dictGet [("Dup", "k2")] "Dup" = some "k2" :=
  C10_duplicate_name_last_writer_wins
    [("k1", ⟨some "Dup", some PayloadType.string, none⟩)] []
    "k2" "Dup" ⟨some "Dup", some PayloadType.integer, none⟩
    [("components", .obj [("messages", .obj [("k1", .obj []), ("k2", .obj [])])])]
    [("components", .obj [("messages", .obj [
      ("k1", .obj [("payload", .obj [("type", .str "string")])]),
      ("k2", .obj [("payload", .obj [("type", .str "integer")])])])])]
    [] [("Dup", "k2")]
    rfl rfl (by decide) rfl (by simp)

end Doodle
